import Mathlib

/-!
Shallow embedding of the rustube core (YouTube downloader) together with
proofs about the behaviour its specification claims.

The embedding covers:
* `src/id.rs`            — video-id parsing (the four anchored regexes and
                           `Id::from_raw`, `Id::watch_url`);
* `src/parser.rs` /
  `src/fetcher.rs`       — the JSON-object scanner `json_object`;
* `src/descrambler/mod.rs` — `descramble`, `apply_signature`,
                           `url_already_contains_signature`;
* `src/video_info/player_response/streaming_data/mod.rs` — the data model
                           (`SignatureCipher`, `StreamingData`, `RawFormat`);
* `src/stream/mod.rs`    — `Stream::from_raw_format`, the track predicates, and
                           the download engine (`internal_download_to`,
                           `download_full_seq`) as a network-oracle model;
* the signature-cipher transform primitives (the `descrambler/cipher` module is
  not part of the sources at hand, so those primitives are modelled from the
  specification, as marked on their doc comments).

Machine strings are modelled as `List Char` (Rust `String` / `str`), URLs as a
record of the non-query part and the ordered list of query key-value pairs
(percent-encoding is not modelled; all values in scope are encoding-free), and
fallible functions return `Except`.
-/

namespace Rustube

/-! ## Basic list-of-char utilities -/

/-- Drops the literal `l` from the front of `s`; `none` when `s` does not start
with `l`. (Used by the regex embedding for literal atoms.) -/
def dropLit : List Char → List Char → Option (List Char)
  | [], s => some s
  | _ :: _, [] => none
  | c :: l, d :: s => if c = d then dropLit l s else none

/-- Does `s` start with the literal `l`? -/
def startsWithLit (l s : List Char) : Bool :=
  (dropLit l s).isSome

/-- Substring test: does `needle` occur contiguously somewhere in `hay`?
Models Rust `str::contains` for literal needles. -/
def strContains (hay needle : List Char) : Bool :=
  match hay with
  | [] => needle.isEmpty
  | _ :: rest => startsWithLit needle hay || strContains rest needle

theorem dropLit_append (l r : List Char) : dropLit l (l ++ r) = some r := by
  induction l with
  | nil => rfl
  | cons c l ih => simp [dropLit, ih]

theorem dropLit_sublist {l s r : List Char} (h : dropLit l s = some r) :
    ∀ c ∈ r, c ∈ s := by
  induction l generalizing s with
  | nil =>
    simp [dropLit] at h
    subst h
    exact fun c hc => hc
  | cons a l ih =>
    match s with
    | [] => simp [dropLit] at h
    | d :: s' =>
      simp only [dropLit] at h
      split at h
      · exact fun c hc => List.mem_cons_of_mem _ (ih h c hc)
      · exact absurd h (by simp)

theorem dropLit_isSuffix {l s r : List Char} (h : dropLit l s = some r) :
    r.length ≤ s.length := by
  induction l generalizing s with
  | nil => simp [dropLit] at h; simp [h]
  | cons a l ih =>
    match s with
    | [] => simp [dropLit] at h
    | d :: s' =>
      simp only [dropLit] at h
      split at h
      · exact Nat.le_succ_of_le (ih h)
      · exact absurd h (by simp)

/-! ## Identifier parsing (src/id.rs)

The four `Id` patterns of `src/id.rs` are anchored regexes
(`^…$`).  They are embedded as a tiny regex language together with a
backtracking matcher in continuation-passing style; alternatives are tried in
written order and quantifiers greedily, which is the match-preference order of
the Rust `regex` crate (leftmost-first semantics).  `\w` is modelled as its
ASCII portion `[A-Za-z0-9_]` and `.` as any character except a newline (the
crate's default). -/

/-- Regex atoms needed by the four id patterns: literal runs, one-character
classes, sequencing, ordered alternation, greedy option and a greedy star over
a character class. -/
inductive RE where
  | lit : List Char → RE
  | cls : (Char → Bool) → RE
  | seq : RE → RE → RE
  | alt : RE → RE → RE
  | opt : RE → RE
  | star : (Char → Bool) → RE

/-- Greedy star over class `p`: consume as many `p`-characters as possible and
backtrack towards shorter matches through the continuation `k`. -/
def starFind (p : Char → Bool) (s : List Char) (k : List Char → Option (List Char)) :
    Option (List Char) :=
  match s with
  | [] => k []
  | c :: r =>
    if p c then (starFind p r k).orElse (fun _ => k (c :: r)) else k (c :: r)

/-- Backtracking matcher: match `re` against a front part of `s` and run the
continuation `k` on every candidate remainder, in preference order; the first
`some` wins. -/
def reFind (re : RE) (s : List Char) (k : List Char → Option (List Char)) :
    Option (List Char) :=
  match re with
  | .lit l => (dropLit l s).bind k
  | .cls p =>
    match s with
    | [] => none
    | c :: r => if p c then k r else none
  | .seq a b => reFind a s (fun r => reFind b r k)
  | .alt a b => (reFind a s k).orElse (fun _ => reFind b s k)
  | .opt a => (reFind a s k).orElse (fun _ => k s)
  | .star p => starFind p s k

/-- ASCII word character, the `\w` class of the patterns. -/
def wordC (c : Char) : Bool :=
  ('a' ≤ c && c ≤ 'z') || ('A' ≤ c && c ≤ 'Z') || ('0' ≤ c && c ≤ '9') || c = '_'

/-- The id character class `[a-zA-Z0-9_-]` of `ID_PATTERN`. -/
def idC (c : Char) : Bool := wordC c || c = '-'

/-- The `.` class (any character but a newline). -/
def anyC (c : Char) : Bool := c != '\n'

/-- Embeds the sub-regex `(https?://)?`. -/
def schemeRE : RE :=
  .opt (.seq (.lit "http".data) (.seq (.opt (.lit "s".data)) (.lit "://".data)))

/-- Embeds the sub-regex `(www\.)?`. -/
def wwwRE : RE := .opt (.lit "www.".data)

/-- Embeds the sub-regex `youtube.\w\w\w?` (note the unescaped dot of the
source pattern). -/
def domainRE : RE :=
  .seq (.lit "youtube".data)
    (.seq (.cls anyC) (.seq (.cls wordC) (.seq (.cls wordC) (.opt (.cls wordC)))))

/-- Part of `WATCH_URL_PATTERN` before the id group. -/
def watchPre : RE := .seq schemeRE (.seq wwwRE (.seq domainRE (.lit "/watch?v=".data)))

/-- Part of `WATCH_URL_PATTERN` after the id group: `(&.*)?`. -/
def watchPost : RE := .opt (.seq (.lit "&".data) (.star anyC))

/-- Part of `EMBED_URL_PATTERN` before the id group. -/
def embedPre : RE := .seq schemeRE (.seq wwwRE (.seq domainRE (.lit "/embed/".data)))

/-- Part of `EMBED_URL_PATTERN` after the id group: `\\?(\?.*)?`, i.e. an
optional literal backslash and an optional query suffix. -/
def embedPost : RE := .seq (.opt (.lit "\\".data)) (.opt (.seq (.lit "?".data) (.star anyC)))

/-- Part of `SHARE_URL_PATTERN` before the id group. -/
def sharePre : RE := .seq schemeRE (.lit "youtu.be/".data)

/-- Part of `SHARE_URL_PATTERN` after the id group (nothing: the pattern ends
in `$` right after the group). -/
def sharePost : RE := .lit []

/-- Part of `ID_PATTERN` before the id group (nothing). -/
def barePre : RE := .lit []

/-- Part of `ID_PATTERN` after the id group (nothing). -/
def barePost : RE := .lit []

/-- Consume exactly `n` id-class characters, returning them and the remainder:
the `(?P<id>[a-zA-Z0-9_-]{11})` group with `n = 11`. -/
def grabId : Nat → List Char → Option (List Char × List Char)
  | 0, s => some ([], s)
  | _ + 1, [] => none
  | n + 1, c :: s =>
    if idC c then (grabId n s).map (fun p => (c :: p.1, p.2)) else none

/-- Anchored match of the pattern `pre (?P<id>[a-zA-Z0-9_-]{11}) post` against
the whole of `s`, returning the capture of the id group. -/
def patCapture (pre post : RE) (s : List Char) : Option (List Char) :=
  reFind pre s (fun r =>
    match grabId 11 r with
    | none => none
    | some (cap, rest) => reFind post rest (fun r2 => if r2.isEmpty then some cap else none))

/-- Error type of the crate (`src/error.rs`), restricted to the variants the
claims mention. -/
inductive MErr where
  | BadIdFormat
  | Request (status : Option Nat)
  | UnexpectedResponse (msg : String)
  | Custom (msg : String)
  | Internal (msg : String)
  deriving DecidableEq, Repr

instance {ε α : Type} [DecidableEq ε] [DecidableEq α] : DecidableEq (Except ε α) := fun a b =>
  match a, b with
  | .ok x, .ok y =>
    if h : x = y then .isTrue (by rw [h]) else .isFalse (by simp [h])
  | .error x, .error y =>
    if h : x = y then .isTrue (by rw [h]) else .isFalse (by simp [h])
  | .ok _, .error _ => .isFalse (by simp)
  | .error _, .ok _ => .isFalse (by simp)

/-- Embeds `Id::from_raw`: try the four patterns in the order of `ID_PATTERNS`
(watch, embed, share, bare); the first match wins and yields the captured
11-character id; otherwise `BadIdFormat`. -/
def from_raw (s : List Char) : Except MErr (List Char) :=
  match patCapture watchPre watchPost s with
  | some id => .ok id
  | none =>
    match patCapture embedPre embedPost s with
    | some id => .ok id
    | none =>
      match patCapture sharePre sharePost s with
      | some id => .ok id
      | none =>
        match patCapture barePre barePost s with
        | some id => .ok id
        | none => .error .BadIdFormat

/-- Embeds `Id::watch_url` (via `Url::parse_with_params`): the id charset is
percent-encoding free, so the result is the literal composition. -/
def watch_url (id : List Char) : List Char := "https://youtube.com/watch?v=".data ++ id

/-- Embeds `Id::embed_url` (path-segment push of the id). -/
def embed_url (id : List Char) : List Char := "https://youtube.com/embed/".data ++ id

/-- Embeds `Id::share_url` (path-segment push of the id). -/
def share_url (id : List Char) : List Char := "https://youtu.be/".data ++ id

/-- A valid 11-character id over `[a-zA-Z0-9_-]`. -/
def validId (id : List Char) : Prop := id.length = 11 ∧ ∀ c ∈ id, idC c = true

instance (id : List Char) : Decidable (validId id) := by
  unfold validId; infer_instance

/-! ### Lemmas about the matcher -/

theorem none_orElse_eq (f : Unit → Option (List Char)) : (none : Option (List Char)).orElse f = f () := rfl

theorem some_orElse_eq (a : List Char) (f : Unit → Option (List Char)) :
    (some a).orElse f = some a := rfl

theorem grabId_append (l r : List Char) (h : ∀ c ∈ l, idC c = true) :
    grabId l.length (l ++ r) = some (l, r) := by
  induction l with
  | nil => rfl
  | cons c l ih =>
    have hc : idC c = true := h c (by simp)
    have ihl := ih (fun d hd => h d (by simp [hd]))
    simp [grabId, hc, ihl]

theorem grabId_exact (l : List Char) (h : ∀ c ∈ l, idC c = true) :
    grabId l.length l = some (l, []) := by
  have := grabId_append l [] h
  simpa using this

theorem dropLit_headBad {a : Char} (l : List Char) (ha : idC a = false) (s : List Char)
    (hs : ∀ c ∈ s, idC c = true) : dropLit (a :: l) s = none := by
  match s with
  | [] => rfl
  | d :: s' =>
    have : a ≠ d := by
      intro h
      rw [h] at ha
      rw [hs d (by simp)] at ha
      simp at ha
    simp [dropLit, this]

theorem dropLit_memBad {l : List Char} (s : List Char)
    (hbad : ∃ a ∈ l, idC a = false) (hs : ∀ c ∈ s, idC c = true) :
    dropLit l s = none := by
  induction l generalizing s with
  | nil => simp at hbad
  | cons a l ih =>
    match s with
    | [] => rfl
    | d :: s' =>
      rcases hbad with ⟨b, hb, hbadb⟩
      rcases List.mem_cons.mp hb with hba | hbl
      · subst hba
        exact dropLit_headBad l hbadb _ hs
      · simp only [dropLit]
        split
        · exact ih s' ⟨b, hbl, hbadb⟩ (fun c hc => hs c (by simp [hc]))
        · rfl

theorem starFind_pure_none (p : Char → Bool) (s : List Char)
    (k : List Char → Option (List Char))
    (hs : ∀ c ∈ s, idC c = true)
    (hk : ∀ r, (∀ c ∈ r, idC c = true) → k r = none) :
    starFind p s k = none := by
  induction s with
  | nil => simpa [starFind] using hk [] (by simp)
  | cons c r ih =>
    have hr : ∀ d ∈ r, idC d = true := fun d hd => hs d (by simp [hd])
    by_cases hp : p c
    · simp [starFind, hp, ih hr, none_orElse_eq, hk (c :: r) hs]
    · simp [starFind, hp, hk (c :: r) hs]

/-- If the continuation rejects every remainder made of id-class characters,
then matching any pattern piece against an id-class-only input fails: the
continuation is only ever invoked on parts of the input. -/
theorem reFind_pure_none (re : RE) (s : List Char) (k : List Char → Option (List Char))
    (hs : ∀ c ∈ s, idC c = true)
    (hk : ∀ r, (∀ c ∈ r, idC c = true) → k r = none) :
    reFind re s k = none := by
  induction re generalizing s k with
  | lit l =>
    cases h : dropLit l s with
    | none => simp [reFind, h]
    | some r =>
      have : k r = none := hk r (fun c hc => hs c (dropLit_sublist h c hc))
      simp [reFind, h, this]
  | cls p =>
    match s with
    | [] => rfl
    | c :: r =>
      have : k r = none := hk r (fun d hd => hs d (by simp [hd]))
      simp [reFind, this]
  | seq a b iha ihb =>
    simp only [reFind]
    exact iha s _ hs (fun r hr => ihb r k hr hk)
  | alt a b iha ihb =>
    simp [reFind, iha s k hs hk, ihb s k hs hk, none_orElse_eq]
  | opt a iha =>
    simp [reFind, iha s k hs hk, none_orElse_eq, hk s hs]
  | star p => exact starFind_pure_none p s k hs hk

theorem reFind_seq (a b : RE) (s : List Char) (k : List Char → Option (List Char)) :
    reFind (.seq a b) s k = reFind a s (fun r => reFind b r k) := rfl

/-- The watch pattern rejects any input made only of id-class characters (it
needs the literal `/watch?v=`, whose head `/` is not an id character). -/
theorem watch_pure_none (s : List Char) (hs : ∀ c ∈ s, idC c = true)
    (K : List Char → Option (List Char)) : reFind watchPre s K = none := by
  show reFind (.seq schemeRE (.seq wwwRE (.seq domainRE (.lit "/watch?v=".data)))) s K = none
  rw [reFind_seq]
  apply reFind_pure_none _ _ _ hs
  intro r1 hr1
  rw [reFind_seq]
  apply reFind_pure_none _ _ _ hr1
  intro r2 hr2
  rw [reFind_seq]
  apply reFind_pure_none _ _ _ hr2
  intro r3 hr3
  show (dropLit "/watch?v=".data r3).bind K = none
  rw [show "/watch?v=".data = '/' :: "watch?v=".data from rfl]
  rw [dropLit_headBad _ (by decide) _ hr3]
  rfl

/-- The embed pattern rejects any input made only of id-class characters. -/
theorem embed_pure_none (s : List Char) (hs : ∀ c ∈ s, idC c = true)
    (K : List Char → Option (List Char)) : reFind embedPre s K = none := by
  show reFind (.seq schemeRE (.seq wwwRE (.seq domainRE (.lit "/embed/".data)))) s K = none
  rw [reFind_seq]
  apply reFind_pure_none _ _ _ hs
  intro r1 hr1
  rw [reFind_seq]
  apply reFind_pure_none _ _ _ hr1
  intro r2 hr2
  rw [reFind_seq]
  apply reFind_pure_none _ _ _ hr2
  intro r3 hr3
  show (dropLit "/embed/".data r3).bind K = none
  rw [show "/embed/".data = '/' :: "embed/".data from rfl]
  rw [dropLit_headBad _ (by decide) _ hr3]
  rfl

/-- The share pattern rejects any input made only of id-class characters (its
literal `youtu.be/` contains a dot). -/
theorem share_pure_none (s : List Char) (hs : ∀ c ∈ s, idC c = true)
    (K : List Char → Option (List Char)) : reFind sharePre s K = none := by
  show reFind (.seq schemeRE (.lit "youtu.be/".data)) s K = none
  rw [reFind_seq]
  apply reFind_pure_none _ _ _ hs
  intro r1 hr1
  show (dropLit "youtu.be/".data r1).bind K = none
  rw [dropLit_memBad _ ⟨'.', by decide, by decide⟩ hr1]
  rfl

/-- A valid bare id is accepted by `from_raw` and returned unchanged. -/
theorem from_raw_bare (id : List Char) (h : validId id) : from_raw id = .ok id := by
  obtain ⟨h11, hpure⟩ := h
  have hw : patCapture watchPre watchPost id = none := watch_pure_none id hpure _
  have he : patCapture embedPre embedPost id = none := embed_pure_none id hpure _
  have hs : patCapture sharePre sharePost id = none := share_pure_none id hpure _
  have hb : patCapture barePre barePost id = some id := by
    show reFind (.lit []) id _ = some id
    have hg : grabId 11 id = some (id, []) := by
      rw [← h11]
      exact grabId_exact id hpure
    simp [reFind, dropLit, hg, patCapture]
  simp [from_raw, hw, he, hs, hb]

/-- A watch URL composed from a valid id parses back to that id. -/
theorem from_raw_watch (id : List Char) (h : validId id) :
    from_raw (watch_url id) = .ok id := by
  obtain ⟨h11, hpure⟩ := h
  have hg : grabId 11 id = some (id, []) := by
    rw [← h11]; exact grabId_exact id hpure
  have hw : patCapture watchPre watchPost (watch_url id) = some id := by
    simp only [patCapture, watch_url, watchPre, watchPost, schemeRE, wwwRE, domainRE]
    simp [reFind, starFind, dropLit, hg]
    decide
  simp [from_raw, hw]

/-- An embed URL composed from a valid id parses back to that id. -/
theorem from_raw_embed (id : List Char) (h : validId id) :
    from_raw (embed_url id) = .ok id := by
  obtain ⟨h11, hpure⟩ := h
  have hg : grabId 11 id = some (id, []) := by
    rw [← h11]; exact grabId_exact id hpure
  have hw : patCapture watchPre watchPost (embed_url id) = none := by
    simp only [patCapture, embed_url, watchPre, watchPost, schemeRE, wwwRE, domainRE]
    simp [reFind, starFind, dropLit, hg]
  have he : patCapture embedPre embedPost (embed_url id) = some id := by
    simp only [patCapture, embed_url, embedPre, embedPost, schemeRE, wwwRE, domainRE]
    simp [reFind, starFind, dropLit, hg]
    decide
  simp [from_raw, hw, he]

/-- A share URL composed from a valid id parses back to that id. -/
theorem from_raw_share (id : List Char) (h : validId id) :
    from_raw (share_url id) = .ok id := by
  obtain ⟨h11, hpure⟩ := h
  have hg : grabId 11 id = some (id, []) := by
    rw [← h11]; exact grabId_exact id hpure
  have hw : patCapture watchPre watchPost (share_url id) = none := by
    simp only [patCapture, share_url, watchPre, watchPost, schemeRE, wwwRE, domainRE]
    simp [reFind, starFind, dropLit, hg]
  have he : patCapture embedPre embedPost (share_url id) = none := by
    simp only [patCapture, share_url, embedPre, embedPost, schemeRE, wwwRE, domainRE]
    simp [reFind, starFind, dropLit, hg]
  have hs : patCapture sharePre sharePost (share_url id) = some id := by
    simp only [patCapture, share_url, sharePre, sharePost, schemeRE]
    simp [reFind, starFind, dropLit, hg]
  simp [from_raw, hw, he, hs]

/-- C4: for every 11-character id over `[A-Za-z0-9_-]` and every composition
pattern among watch URL, embed URL, share URL and bare id, `Id::from_raw`
applied to the composed string succeeds and returns exactly the id; in
particular the bare input `5jlI4uzZGjU` yields the identifier `5jlI4uzZGjU`
and `watch_url()` is `https://youtube.com/watch?v=5jlI4uzZGjU`. -/
theorem claim_C4_from_raw_roundtrip (id : List Char) (h : validId id) :
    from_raw (watch_url id) = .ok id ∧
    from_raw (embed_url id) = .ok id ∧
    from_raw (share_url id) = .ok id ∧
    from_raw id = .ok id ∧
    from_raw "5jlI4uzZGjU".data = .ok "5jlI4uzZGjU".data ∧
    watch_url "5jlI4uzZGjU".data = "https://youtube.com/watch?v=5jlI4uzZGjU".data :=
  ⟨from_raw_watch id h, from_raw_embed id h, from_raw_share id h, from_raw_bare id h,
    from_raw_bare _ (by decide), rfl⟩

/-- Witness for C4 at the concrete id of the specification scenario. -/
theorem claim_C4_witness :
    validId "5jlI4uzZGjU".data ∧
    from_raw (watch_url "5jlI4uzZGjU".data) = .ok "5jlI4uzZGjU".data :=
  ⟨by decide, (claim_C4_from_raw_roundtrip "5jlI4uzZGjU".data (by decide)).1⟩

/-- C9 counterexample: the input `not-a-video` is itself an 11-character
string over `[a-zA-Z0-9_-]`, so it matches the bare-id pattern and
`Id::from_raw` accepts it instead of returning `BadIdFormat`. -/
theorem claim_C9_counterexample :
    from_raw "not-a-video".data = .ok "not-a-video".data :=
  from_raw_bare _ (by decide)

/-- C9 (amended): `Id::from_raw` returns `BadIdFormat` exactly when the input
matches none of the four patterns (watch, embed, share, bare 11-character id);
the input `not-a-video` matches the bare pattern and therefore yields the id
`not-a-video`, not `BadIdFormat`. -/
theorem claim_C9_bad_id_format :
    (∀ s : List Char,
      from_raw s = .error .BadIdFormat ↔
        (patCapture watchPre watchPost s = none ∧
         patCapture embedPre embedPost s = none ∧
         patCapture sharePre sharePost s = none ∧
         patCapture barePre barePost s = none)) ∧
    from_raw "not-a-video".data = .ok "not-a-video".data := by
  constructor
  · intro s
    constructor
    · intro h
      unfold from_raw at h
      repeat' constructor
      all_goals
        cases hw : patCapture watchPre watchPost s <;>
        cases he : patCapture embedPre embedPost s <;>
        cases hs : patCapture sharePre sharePost s <;>
        cases hb : patCapture barePre barePost s <;>
        simp [hw, he, hs, hb] at h ⊢
    · rintro ⟨hw, he, hs, hb⟩
      simp [from_raw, hw, he, hs, hb]
  · exact from_raw_bare _ (by decide)

/-- Witness for C9: an input rejected by all four patterns does produce
`BadIdFormat`. -/
theorem claim_C9_witness : from_raw "???".data = .error .BadIdFormat :=
  (claim_C9_bad_id_format.1 "???".data).mpr (by decide)

/-! ## Signature cipher transforms

The `descrambler/cipher` module is not among the sources at hand (only its
callers are), so the transform primitives are modelled from the
specification. -/

/-- Modelled from the spec: the three primitives of the player script's
transform object (spec §4.D); the `descrambler/cipher` module that implements
them is missing from the sources. -/
inductive TransformOp where
  | reverse
  | splice
  | swap
  deriving DecidableEq, Repr

/-- A transform plan: an ordered list of `(op, argument)` pairs.  The
arguments in the player script are literal non-negative integers. -/
def TransformPlan : Type := List (TransformOp × Nat)

/-- Modelled from the spec: one primitive applied to the character array.
`reverse` reverses the whole array and ignores the argument, `splice` removes
the first `n` elements, and `swap` exchanges position `0` with position
`n mod len`, preserving the rest. -/
def applyOp : TransformOp → Nat → List Char → List Char
  | .reverse, _, s => s.reverse
  | .splice, n, s => s.drop n
  | .swap, n, s =>
    match s with
    | [] => []
    | c0 :: rest =>
      let j := n % (c0 :: rest).length
      ((c0 :: rest).set 0 ((c0 :: rest).getD j c0)).set j c0

/-- Modelled from the spec: `Cipher::decrypt_signature` applies every step of
the transform plan, in order, to the signature. -/
def decrypt_signature (plan : TransformPlan) (s : List Char) : List Char :=
  plan.foldl (fun acc step => applyOp step.1 step.2 acc) s

/-- The sum of the arguments of the splice steps of a plan. -/
def sumSpliceArgs (plan : TransformPlan) : Nat :=
  (plan.map (fun step => if step.1 = .splice then step.2 else 0)).sum

theorem applyOp_length (op : TransformOp) (n : Nat) (s : List Char) :
    (applyOp op n s).length = s.length - (if op = .splice then n else 0) := by
  cases op with
  | reverse => simp [applyOp]
  | splice => simp [applyOp]
  | swap =>
    cases s with
    | nil => simp [applyOp]
    | cons c0 rest => simp [applyOp]

theorem decrypt_signature_length (plan : TransformPlan) (s : List Char) :
    (decrypt_signature plan s).length = s.length - sumSpliceArgs plan := by
  induction plan generalizing s with
  | nil => simp [decrypt_signature, sumSpliceArgs]
  | cons step rest ih =>
    show (decrypt_signature rest (applyOp step.1 step.2 s)).length = _
    rw [ih, applyOp_length]
    have : sumSpliceArgs (step :: rest) =
        (if step.1 = .splice then step.2 else 0) + sumSpliceArgs rest := by
      simp [sumSpliceArgs]
    rw [this, Nat.sub_sub]

/-- C2: applying a transform plan to a scrambled signature yields a string
whose length is the original length minus the sum of the splice arguments of
the plan (stated additively; the hypothesis says the splices never exceed the
available characters, which is what makes the subtraction meaningful). -/
theorem claim_C2_plan_length (plan : TransformPlan) (s : List Char)
    (h : sumSpliceArgs plan ≤ s.length) :
    (decrypt_signature plan s).length + sumSpliceArgs plan = s.length := by
  rw [decrypt_signature_length]
  exact Nat.sub_add_cancel h

/-- Witness for C2 at a concrete plan and signature. -/
theorem claim_C2_witness :
    sumSpliceArgs [(.swap, 3), (.reverse, 17), (.splice, 2)] ≤ "ABCDEFGHIJ".data.length ∧
    (decrypt_signature [(.swap, 3), (.reverse, 17), (.splice, 2)] "ABCDEFGHIJ".data).length
      + sumSpliceArgs [(.swap, 3), (.reverse, 17), (.splice, 2)] = "ABCDEFGHIJ".data.length :=
  ⟨by decide, claim_C2_plan_length _ _ (by decide)⟩

/-! ## URLs and the streaming data model -/

/-- Model of `url::Url`: the part before the query, plus the ordered key-value
pairs of the query string.  Percent-encoding is not modelled (every value in
scope is encoding-free), so `append_pair` is a plain append. -/
structure MUrl where
  base : List Char
  query : List (List Char × List Char)
  deriving DecidableEq, Repr

/-- Renders a query pair list the way `Url::as_str` shows it. -/
def renderQuery : List (List Char × List Char) → List Char
  | [] => []
  | [(k, v)] => k ++ '=' :: v
  | (k, v) :: rest => k ++ '=' :: v ++ '&' :: renderQuery rest

/-- The full URL string (`Url::as_str`): no question mark when the query is
empty. -/
def MUrl.asStr (u : MUrl) : List Char :=
  u.base ++ (if u.query.isEmpty then [] else '?' :: renderQuery u.query)

/-- Embeds `url.query_pairs_mut().append_pair(k, v)`. -/
def MUrl.appendPair (u : MUrl) (k v : List Char) : MUrl :=
  { u with query := u.query ++ [(k, v)] }

/-- Embeds `SignatureCipher` (streaming_data/mod.rs): the URL plus the
optional scrambled token `s`. -/
structure SignatureCipher where
  url : MUrl
  s : Option (List Char)
  deriving DecidableEq, Repr

/-- Model of `mime::Mime`, restricted to what the claims touch: the major
type and the subtype. -/
structure MMime where
  ty : List Char
  subty : List Char
  deriving DecidableEq, Repr

/-- Embeds `MimeType` (streaming_data/mod.rs). -/
structure MimeType where
  mime : MMime
  codecs : List (List Char)
  deriving DecidableEq, Repr

/-- Embeds `RawFormat`, restricted to the fields the claims touch
(`mime_type`, `signature_cipher`, `itag`); the remaining metadata fields are
passive payload for every claim. -/
structure RawFormat where
  itag : Nat
  mime_type : MimeType
  signature_cipher : SignatureCipher
  deriving DecidableEq, Repr

/-- Embeds `StreamingData`. -/
structure StreamingData where
  adaptive_formats : List RawFormat
  expires_in_seconds : Nat
  formats : List RawFormat
  deriving DecidableEq, Repr

/-- Embeds `PlayerResponse`, restricted to the field the claims touch. -/
structure PlayerResponse where
  streaming_data : Option StreamingData
  deriving DecidableEq, Repr

/-- Embeds `VideoInfo` (the `video_info.rs` revision the descrambler uses,
with the raw adaptive-formats string). -/
structure VideoInfo where
  player_response : PlayerResponse
  adaptive_fmts_raw : Option (List Char)
  deriving DecidableEq, Repr

/-! ## Stream construction (src/stream/mod.rs) -/

/-- Embeds `is_adaptive`: an odd number of codec strings. -/
def is_adaptive (codecs : List (List Char)) : Bool :=
  codecs.length % 2 != 0

/-- Embeds `is_progressive`: an even number of codec strings. -/
def is_progressive (codecs : List (List Char)) : Bool :=
  !(is_adaptive codecs)

/-- Embeds `includes_video_track`. -/
def includes_video_track (codecs : List (List Char)) (mime : MMime) : Bool :=
  is_progressive codecs || mime.ty == "video".data

/-- Embeds `includes_audio_track`. -/
def includes_audio_track (codecs : List (List Char)) (mime : MMime) : Bool :=
  is_progressive codecs || mime.ty == "audio".data

/-- Embeds `Stream`, restricted to the fields the claims touch (the HTTP
client and the shared `VideoDetails` are runtime handles outside the model). -/
structure Stream where
  mime : MMime
  codecs : List (List Char)
  is_progressive : Bool
  includes_video_track : Bool
  includes_audio_track : Bool
  itag : Nat
  signature_cipher : SignatureCipher
  deriving DecidableEq, Repr

/-- Embeds `Stream::from_raw_format`. -/
def Stream.from_raw_format (rf : RawFormat) : Stream :=
  { is_progressive := Rustube.is_progressive rf.mime_type.codecs
    includes_video_track := Rustube.includes_video_track rf.mime_type.codecs rf.mime_type.mime
    includes_audio_track := Rustube.includes_audio_track rf.mime_type.codecs rf.mime_type.mime
    mime := rf.mime_type.mime
    codecs := rf.mime_type.codecs
    itag := rf.itag
    signature_cipher := rf.signature_cipher }

/-! ## Descrambler (src/descrambler/mod.rs) -/

/-- Embeds `url_already_contains_signature`: substring tests on the rendered
URL string. -/
def url_already_contains_signature (url : MUrl) : Bool :=
  strContains url.asStr "signature".data ||
    (strContains url.asStr "&sig=".data || strContains url.asStr "&lsig=".data)

/-- One iteration of the `apply_signature` loop on a single format: when the
scrambled token is present, decrypt it in place and append `sig=<token>` to
the URL query; when absent, skip pre-signed URLs and fail otherwise. -/
def applySignatureFormat (plan : TransformPlan) (rf : RawFormat) : Except MErr RawFormat :=
  match rf.signature_cipher.s with
  | some s =>
    let s2 := decrypt_signature plan s
    .ok { rf with signature_cipher :=
            { url := rf.signature_cipher.url.appendPair "sig".data s2, s := some s2 } }
  | none =>
    if url_already_contains_signature rf.signature_cipher.url then .ok rf
    else .error (.UnexpectedResponse "RawFormat did not contain a signature (s), nor did the url")

/-- Sequential map with early return on the first error, as a Rust `for` loop
with `?` inside behaves. -/
def mapExcept (f : α → Except MErr β) : List α → Except MErr (List β)
  | [] => .ok []
  | x :: xs =>
    match f x with
    | .error e => .error e
    | .ok y =>
      match mapExcept f xs with
      | .error e => .error e
      | .ok ys => .ok (y :: ys)

/-- Embeds `apply_signature`: build the cipher from the player js and process
`formats`, then `adaptive_formats`, in order.  `Cipher::from_js` (the script
parser, not among the sources at hand) enters the model as the argument
`cipherFromJs`. -/
def apply_signature (cipherFromJs : List Char → Except MErr TransformPlan)
    (js : List Char) (sd : StreamingData) : Except MErr StreamingData :=
  match cipherFromJs js with
  | .error e => .error e
  | .ok plan =>
    match mapExcept (applySignatureFormat plan) sd.formats with
    | .error e => .error e
    | .ok fmts =>
      match mapExcept (applySignatureFormat plan) sd.adaptive_formats with
      | .error e => .error e
      | .ok afmts => .ok { sd with formats := fmts, adaptive_formats := afmts }

/-- Embeds `apply_descrambler_adaptive_fmts`: split the raw string on commas,
parse each chunk as a query-string-encoded `RawFormat` and push it onto
`formats`.  The parser (`serde_qs::from_str`, an external crate) enters the
model as the argument `qsParse`. -/
def apply_descrambler_adaptive_fmts (qsParse : List Char → Except MErr RawFormat)
    (sd : StreamingData) (raw : List Char) : Except MErr StreamingData :=
  match mapExcept qsParse ((String.mk raw).splitOn "," |>.map String.data) with
  | .error e => .error e
  | .ok parsed => .ok { sd with formats := sd.formats ++ parsed }

/-- Embeds `VideoDescrambler::initialize_streams`: drain `formats`, then
`adaptive_formats`, converting every raw format into a `Stream`. -/
def initialize_streams (sd : StreamingData) : List Stream :=
  (sd.formats ++ sd.adaptive_formats).map Stream.from_raw_format

/-- Embeds `Video`, restricted to the stream list. -/
structure Video where
  streams : List Stream
  deriving DecidableEq, Repr

/-- Embeds `VideoDescrambler::descramble`: take the streaming data (a missing
one is a `Custom` error), apply the raw adaptive formats when present, apply
the signature cipher, and materialise the streams. -/
def descramble (qsParse : List Char → Except MErr RawFormat)
    (cipherFromJs : List Char → Except MErr TransformPlan)
    (js : List Char) (vi : VideoInfo) : Except MErr Video :=
  match vi.player_response.streaming_data with
  | none => .error (.Custom "VideoInfo contained no StreamingData, which is essential for downloading.")
  | some sd =>
    match (match vi.adaptive_fmts_raw with
           | some raw => apply_descrambler_adaptive_fmts qsParse sd raw
           | none => .ok sd) with
    | .error e => .error e
    | .ok sd2 =>
      match apply_signature cipherFromJs js sd2 with
      | .error e => .error e
      | .ok sd3 => .ok { streams := initialize_streams sd3 }

/-! ### Lemmas about the descrambler -/

theorem mapExcept_ok_length {f : α → Except MErr β} {l : List α} {l' : List β}
    (h : mapExcept f l = .ok l') : l'.length = l.length := by
  induction l generalizing l' with
  | nil => simp [mapExcept] at h; simp [← h]
  | cons a as ih =>
    simp only [mapExcept] at h
    cases hfa : f a with
    | error e => rw [hfa] at h; simp at h
    | ok y =>
      rw [hfa] at h
      cases hma : mapExcept f as with
      | error e => rw [hma] at h; simp at h
      | ok ys =>
        rw [hma] at h
        simp at h
        simp [← h, ih hma]

theorem mapExcept_ok_get {f : α → Except MErr β} {l : List α} {l' : List β}
    (h : mapExcept f l = .ok l') {i : Nat} {x : α} (hx : l.get? i = some x) :
    ∃ y, f x = .ok y ∧ l'.get? i = some y := by
  induction l generalizing l' i with
  | nil => simp at hx
  | cons a as ih =>
    simp only [mapExcept] at h
    cases hfa : f a with
    | error e => rw [hfa] at h; simp at h
    | ok y =>
      rw [hfa] at h
      cases hma : mapExcept f as with
      | error e => rw [hma] at h; simp at h
      | ok ys =>
        rw [hma] at h
        simp at h
        cases i with
        | zero =>
          rw [List.get?_cons_zero] at hx
          injection hx with hx
          subst hx
          refine ⟨y, hfa, ?_⟩
          rw [← h, List.get?_cons_zero]
        | succ n =>
          rw [List.get?_cons_succ] at hx
          obtain ⟨y', hy', hget⟩ := ih hma hx
          refine ⟨y', hy', ?_⟩
          rw [← h, List.get?_cons_succ]
          exact hget

/-- Unpacks a successful `apply_signature` into its cipher plan and the two
transformed format lists. -/
theorem apply_signature_ok_elim {cipherFromJs : List Char → Except MErr TransformPlan}
    {js : List Char} {sd sd3 : StreamingData}
    (h : apply_signature cipherFromJs js sd = .ok sd3) :
    ∃ plan fmts afmts, cipherFromJs js = .ok plan ∧
      mapExcept (applySignatureFormat plan) sd.formats = .ok fmts ∧
      mapExcept (applySignatureFormat plan) sd.adaptive_formats = .ok afmts ∧
      sd3 = { adaptive_formats := afmts, expires_in_seconds := sd.expires_in_seconds,
              formats := fmts } := by
  cases hcf : cipherFromJs js with
  | error e => unfold apply_signature at h; rw [hcf] at h; simp at h
  | ok plan =>
    unfold apply_signature at h
    rw [hcf] at h
    simp only [] at h
    cases hf : mapExcept (applySignatureFormat plan) sd.formats with
    | error e => rw [hf] at h; simp at h
    | ok fmts =>
      rw [hf] at h
      cases ha : mapExcept (applySignatureFormat plan) sd.adaptive_formats with
      | error e => rw [ha] at h; simp at h
      | ok afmts =>
        rw [ha] at h
        simp at h
        exact ⟨plan, fmts, afmts, rfl, hf, ha, h.symm⟩

/-- C1: whenever `descramble` succeeds, every raw format that carried a
scrambled token `s` ends up as a stream whose URL query contains the pair
`sig=<descrambled signature>` (the source `SignatureCipher` has no `sp`
field, so the default parameter name `sig` always applies). -/
theorem claim_C1_sig_param (qsParse : List Char → Except MErr RawFormat)
    (cipherFromJs : List Char → Except MErr TransformPlan) (js : List Char)
    (vi : VideoInfo) (video : Video) (sd : StreamingData) (plan : TransformPlan)
    (hok : descramble qsParse cipherFromJs js vi = .ok video)
    (hraw : vi.adaptive_fmts_raw = none)
    (hsd : vi.player_response.streaming_data = some sd)
    (hplan : cipherFromJs js = .ok plan) :
    (∀ i rf s, sd.formats.get? i = some rf → rf.signature_cipher.s = some s →
      ∃ st, video.streams.get? i = some st ∧
        ("sig".data, decrypt_signature plan s) ∈ st.signature_cipher.url.query) ∧
    (∀ i rf s, sd.adaptive_formats.get? i = some rf → rf.signature_cipher.s = some s →
      ∃ st, video.streams.get? (sd.formats.length + i) = some st ∧
        ("sig".data, decrypt_signature plan s) ∈ st.signature_cipher.url.query) := by
  unfold descramble at hok
  rw [hsd, hraw] at hok
  simp only [] at hok
  cases happ : apply_signature cipherFromJs js sd with
  | error e => rw [happ] at hok; simp at hok
  | ok sd3 =>
    rw [happ] at hok
    simp at hok
    obtain ⟨plan', fmts, afmts, hcf, hf, ha, hsd3⟩ := apply_signature_ok_elim happ
    rw [hplan] at hcf
    injection hcf with hcf
    subst hcf
    have hvideo : video.streams = (fmts ++ afmts).map Stream.from_raw_format := by
      rw [← hok, hsd3]
      rfl
    have hlenf : fmts.length = sd.formats.length := mapExcept_ok_length hf
    constructor
    · intro i rf s hi hs
      obtain ⟨rf', hfa, hget⟩ := mapExcept_ok_get hf hi
      have hi_lt : i < fmts.length := by
        rcases List.get?_eq_some.mp hget with ⟨hlt, _⟩
        exact hlt
      refine ⟨Stream.from_raw_format rf', ?_, ?_⟩
      · rw [hvideo, List.get?_map, List.get?_append hi_lt, hget]
        rfl
      · simp only [applySignatureFormat, hs] at hfa
        simp at hfa
        rw [← hfa]
        simp [Stream.from_raw_format, MUrl.appendPair]
    · intro i rf s hi hs
      obtain ⟨rf', hfa, hget⟩ := mapExcept_ok_get ha hi
      refine ⟨Stream.from_raw_format rf', ?_, ?_⟩
      · rw [hvideo, List.get?_map]
        rw [List.get?_append_right (by omega : fmts.length ≤ sd.formats.length + i)]
        rw [hlenf]
        have : sd.formats.length + i - sd.formats.length = i := by omega
        rw [this, hget]
        rfl
      · simp only [applySignatureFormat, hs] at hfa
        simp at hfa
        rw [← hfa]
        simp [Stream.from_raw_format, MUrl.appendPair]

/-- Witness data for C1: a single format with a scrambled token. -/
def cipherPlan0 : TransformPlan := [(.reverse, 0)]

/-- Witness data for C1 and C7: the parsers the model abstracts over. -/
def qs0 : List Char → Except MErr RawFormat := fun _ => .error (.Custom "unused")

/-- Witness data: a cipher builder always returning `cipherPlan0`. -/
def cf0 : List Char → Except MErr TransformPlan := fun _ => .ok cipherPlan0

/-- Witness data: a raw format carrying the scrambled token `ab`. -/
def rfScrambled : RawFormat :=
  { itag := 18,
    mime_type := { mime := { ty := "video".data, subty := "mp4".data }, codecs := [] },
    signature_cipher := { url := { base := "https://u".data, query := [] }, s := some "ab".data } }

/-- Witness data: video info holding exactly `rfScrambled`. -/
def viScrambled : VideoInfo :=
  { player_response :=
      { streaming_data :=
          some ({ adaptive_formats := [], expires_in_seconds := 0,
                  formats := [rfScrambled] } : StreamingData) },
    adaptive_fmts_raw := none }

/-- Witness data: the video `descramble` produces from `viScrambled`. -/
def video0 : Video :=
  { streams := [
      { mime := { ty := "video".data, subty := "mp4".data },
        codecs := [],
        is_progressive := true,
        includes_video_track := true,
        includes_audio_track := true,
        itag := 18,
        signature_cipher :=
          { url := { base := "https://u".data, query := [("sig".data, "ba".data)] },
            s := some "ba".data } }] }

/-- Witness for C1 at the concrete one-format video. -/
theorem claim_C1_witness :
    descramble qs0 cf0 "js".data viScrambled = .ok video0 ∧
    ∃ st, video0.streams.get? 0 = some st ∧
      ("sig".data, decrypt_signature cipherPlan0 "ab".data) ∈ st.signature_cipher.url.query := by
  have h := claim_C1_sig_param qs0 cf0 "js".data viScrambled video0
    ({ adaptive_formats := [], expires_in_seconds := 0,
       formats := [rfScrambled] } : StreamingData)
    cipherPlan0 (by decide) rfl rfl rfl
  exact ⟨by decide, h.1 0 rfScrambled "ab".data rfl rfl⟩

/-- C6: for a format without a scrambled token, `apply_signature` leaves a
pre-signed URL (one containing `signature`, `&sig=` or `&lsig=`) completely
untouched and the format still becomes a stream, while a format whose URL has
none of these markers aborts descrambling with `UnexpectedResponse`. -/
theorem claim_C6_presigned (plan : TransformPlan) (rf : RawFormat)
    (hs : rf.signature_cipher.s = none) :
    (url_already_contains_signature rf.signature_cipher.url = true →
      applySignatureFormat plan rf = .ok rf) ∧
    (url_already_contains_signature rf.signature_cipher.url = false →
      applySignatureFormat plan rf =
        .error (.UnexpectedResponse "RawFormat did not contain a signature (s), nor did the url")) ∧
    (∀ cipherFromJs js sd sd2 i, apply_signature cipherFromJs js sd = .ok sd2 →
      sd.formats.get? i = some rf →
      url_already_contains_signature rf.signature_cipher.url = true →
      sd2.formats.get? i = some rf ∧
      (initialize_streams sd2).get? i = some (Stream.from_raw_format rf)) := by
  refine ⟨fun h => by simp [applySignatureFormat, hs, h], fun h => by simp [applySignatureFormat, hs, h], ?_⟩
  intro cipherFromJs js sd sd2 i hok hi hurl
  obtain ⟨plan', fmts, afmts, hcf, hf, ha, hsd2⟩ := apply_signature_ok_elim hok
  obtain ⟨rf', hfa, hget⟩ := mapExcept_ok_get hf hi
  have hrf : rf' = rf := by
    simp [applySignatureFormat, hs, hurl] at hfa
    exact hfa.symm
  subst hrf
  have hi_lt : i < fmts.length := by
    rcases List.get?_eq_some.mp hget with ⟨hlt, _⟩
    exact hlt
  subst hsd2
  constructor
  · exact hget
  · show ((fmts ++ afmts).map Stream.from_raw_format).get? i = _
    rw [List.get?_map, List.get?_append hi_lt, hget]
    rfl

/-- Witness data for C6: a pre-signed format (its URL contains `&sig=`). -/
def rfPresigned : RawFormat :=
  { itag := 22,
    mime_type := { mime := { ty := "video".data, subty := "mp4".data }, codecs := [] },
    signature_cipher :=
      { url := { base := "https://u".data,
                 query := [("x".data, "1".data), ("sig".data, "abc".data)] },
        s := none } }

/-- Witness data for C6: streaming data holding exactly `rfPresigned`. -/
def sdPresigned : StreamingData :=
  { adaptive_formats := [], expires_in_seconds := 0, formats := [rfPresigned] }

/-- Witness for C6 at the concrete pre-signed format. -/
theorem claim_C6_witness :
    applySignatureFormat cipherPlan0 rfPresigned = .ok rfPresigned ∧
    (initialize_streams sdPresigned).get? 0 = some (Stream.from_raw_format rfPresigned) := by
  have h := claim_C6_presigned cipherPlan0 rfPresigned rfl
  refine ⟨h.1 (by decide), ?_⟩
  rfl

/-- C7 counterexample: when the streaming data is absent, `descramble` fails
with the `Custom` variant, not with `UnexpectedResponse` as the claim says. -/
def emptyVi : VideoInfo :=
  { player_response := { streaming_data := none }, adaptive_fmts_raw := none }

/-- Tests whether a descramble outcome is an `UnexpectedResponse` error. -/
def errIsUnexpectedResponse : Except MErr Video → Bool
  | .error (.UnexpectedResponse _) => true
  | _ => false

/-- C7 counterexample: missing streaming data produces `Custom`, which is not
an `UnexpectedResponse` error. -/
theorem claim_C7_counterexample :
    descramble qs0 cf0 "js".data emptyVi =
      .error (.Custom "VideoInfo contained no StreamingData, which is essential for downloading.") ∧
    errIsUnexpectedResponse (descramble qs0 cf0 "js".data emptyVi) = false :=
  ⟨rfl, rfl⟩

/-- C7 (amended): `descramble` fails with the `Custom` error
`VideoInfo contained no StreamingData, which is essential for downloading.`
exactly when the player response has no streaming data; streaming data that is
present but empty descrambles successfully into an empty stream list. -/
theorem claim_C7_custom_error (qsParse : List Char → Except MErr RawFormat)
    (cipherFromJs : List Char → Except MErr TransformPlan) (js : List Char)
    (vi vi2 : VideoInfo) (plan : TransformPlan) (sd : StreamingData)
    (h : vi.player_response.streaming_data = none)
    (h2 : vi2.player_response.streaming_data = some sd)
    (hf : sd.formats = []) (ha : sd.adaptive_formats = [])
    (hr : vi2.adaptive_fmts_raw = none)
    (hcf : cipherFromJs js = .ok plan) :
    descramble qsParse cipherFromJs js vi =
      .error (.Custom "VideoInfo contained no StreamingData, which is essential for downloading.") ∧
    descramble qsParse cipherFromJs js vi2 = .ok { streams := [] } := by
  constructor
  · unfold descramble
    rw [h]
  · unfold descramble
    rw [h2, hr]
    simp only []
    unfold apply_signature
    rw [hcf, hf, ha]
    simp [mapExcept, initialize_streams]

/-- Witness data for C7: streaming data with empty format lists. -/
def emptySd : StreamingData := { adaptive_formats := [], expires_in_seconds := 0, formats := [] }

/-- Witness data for C7: video info holding the empty streaming data. -/
def emptyVi2 : VideoInfo :=
  { player_response := { streaming_data := some emptySd }, adaptive_fmts_raw := none }

/-- Witness for C7 at the two concrete video infos. -/
theorem claim_C7_witness :
    descramble qs0 cf0 "js".data emptyVi =
      .error (.Custom "VideoInfo contained no StreamingData, which is essential for downloading.") ∧
    descramble qs0 cf0 "js".data emptyVi2 = .ok { streams := [] } :=
  claim_C7_custom_error qs0 cf0 "js".data emptyVi emptyVi2 cipherPlan0 emptySd
    rfl rfl rfl rfl rfl rfl

/-- C10: a stream is progressive exactly when its codec count is even (the
empty codec list counts as progressive), and a progressive stream includes
both tracks regardless of the MIME major type. -/
theorem claim_C10_progressive (rf : RawFormat) :
    ((Stream.from_raw_format rf).is_progressive = (rf.mime_type.codecs.length % 2 == 0)) ∧
    (rf.mime_type.codecs = [] → (Stream.from_raw_format rf).is_progressive = true) ∧
    ((Stream.from_raw_format rf).is_progressive = true →
      (Stream.from_raw_format rf).includes_video_track = true ∧
      (Stream.from_raw_format rf).includes_audio_track = true) := by
  refine ⟨?_, ?_, ?_⟩
  · rcases Nat.mod_two_eq_zero_or_one rf.mime_type.codecs.length with h | h <;>
      simp [Stream.from_raw_format, is_progressive, is_adaptive, h]
  · intro h
    simp [Stream.from_raw_format, is_progressive, is_adaptive, h]
  · intro h
    simp only [Stream.from_raw_format] at h
    simp [Stream.from_raw_format, includes_video_track, includes_audio_track, h]

/-- Witness data for C10: an even codec count under a MIME major type that is
neither `video` nor `audio`. -/
def rfText : RawFormat :=
  { itag := 22,
    mime_type := { mime := { ty := "text".data, subty := "plain".data },
                   codecs := ["avc1".data, "mp4a".data] },
    signature_cipher := { url := { base := "https://u".data, query := [] }, s := none } }

/-- Witness for C10 at the concrete format. -/
theorem claim_C10_witness :
    (Stream.from_raw_format rfText).is_progressive = true ∧
    (Stream.from_raw_format rfText).includes_video_track = true ∧
    (Stream.from_raw_format rfText).includes_audio_track = true := by
  have h := claim_C10_progressive rfText
  have h3 := h.2.2 (by decide)
  exact ⟨h.1.trans (by decide), h3.1, h3.2⟩

/-! ## The JSON-object scanner (src/parser.rs and src/fetcher.rs, identical
logic) -/

/-- Embeds `is_json_object_end`: one step of the scan.  Takes the current
character, the skip flag and the context stack; returns whether the object has
just ended together with the updated flag and stack.  The source unwraps the
stack top; the scan stops before the stack can be empty here, so the default
is never read. -/
def is_json_object_end (curr : Char) (skip : Bool) (stack : List Char) :
    Bool × Bool × List Char :=
  if skip then (false, false, stack)
  else
    let context := stack.headD ' '
    let stack' :=
      if curr == '}' && context == '{' then stack.tail
      else if curr == ']' && context == '[' then stack.tail
      else if curr == '"' && context == '"' then stack.tail
      else if curr == '{' && context != '"' then '{' :: stack
      else if curr == '[' && context != '"' then '[' :: stack
      else if curr == '"' && context != '"' then '"' :: stack
      else stack
    let skip' := curr == '\\' && context == '"'
    (stack'.isEmpty, skip', stack')

/-- The `find` of the scan: step through the characters, keeping their index,
and return the index of the character that empties the stack. -/
def findEnd (cs : List Char) (skip : Bool) (stack : List Char) (i : Nat) : Option Nat :=
  match cs with
  | [] => none
  | c :: rest =>
    let r := is_json_object_end c skip stack
    if r.1 then some i else findEnd rest r.2.1 r.2.2 (i + 1)

/-- Embeds `json_object` (fetcher.rs): trim everything before the first `{`,
fail on an empty remainder, then scan from index 1 with the stack seeded with
`{`, and return the slice through the closing character. -/
def json_object (html : List Char) : Except MErr (List Char) :=
  let t := html.dropWhile (fun c => c != '{')
  if t.isEmpty then .error (.Internal "cannot parse a json object from an empty string")
  else
    match findEnd (t.drop 1) false ['{'] 1 with
    | some i => .ok (t.take (i + 1))
    | none => .error (.Internal "could not find a closing delimiter")

/-! ### Lemmas about the scanner -/

theorem findEnd_ge {cs : List Char} {skip : Bool} {stack : List Char} {i j : Nat}
    (h : findEnd cs skip stack i = some j) : i ≤ j := by
  induction cs generalizing skip stack i with
  | nil => simp [findEnd] at h
  | cons c rest ih =>
    simp only [findEnd] at h
    split at h
    · injection h with h
      omega
    · exact Nat.le_of_succ_le (ih h)

/-- When the bottom of the stack is the seeding opening brace, the scan can
only finish on a closing brace. -/
theorem step_done_brace {c : Char} {skip : Bool} {stack : List Char}
    (hlast : stack.getLast? = some '{')
    (hdone : (is_json_object_end c skip stack).1 = true) : c = '}' := by
  match stack, hlast with
  | x :: tl, hlast =>
    by_cases hskip : skip
    · simp [is_json_object_end, hskip] at hdone
    · simp only [is_json_object_end, hskip] at hdone
      simp at hdone
      repeat' split at hdone
      all_goals simp_all

/-- A step that does not finish the scan keeps the seeding opening brace at
the bottom of the stack. -/
theorem step_not_done_last {c : Char} {skip : Bool} {stack : List Char}
    (hlast : stack.getLast? = some '{')
    (hnd : (is_json_object_end c skip stack).1 = false) :
    (is_json_object_end c skip stack).2.2.getLast? = some '{' := by
  match stack, hlast with
  | x :: tl, hlast =>
    by_cases hskip : skip
    · simpa [is_json_object_end, hskip] using hlast
    · simp only [is_json_object_end, hskip] at hnd ⊢
      simp at hnd ⊢
      repeat' split at hnd
      all_goals try simp_all
      all_goals (cases tl with
        | nil => simp_all
        | cons y tl' =>
            rw [List.getLast?_cons_cons] at hlast
            repeat' split
            all_goals simp_all)


/-- The index the scan returns points at a `}` character. -/
theorem findEnd_brace {cs : List Char} {skip : Bool} {stack : List Char} {i j : Nat}
    (hlast : stack.getLast? = some '{')
    (h : findEnd cs skip stack i = some j) : cs.get? (j - i) = some '}' := by
  induction cs generalizing skip stack i with
  | nil => simp [findEnd] at h
  | cons c rest ih =>
    simp only [findEnd] at h
    split at h
    · rename_i hdone
      injection h with h
      subst h
      simp only [Nat.sub_self, List.get?_cons_zero]
      exact congrArg some (step_done_brace hlast hdone)
    · rename_i hnd
      have hlast' := step_not_done_last hlast (by simpa using hnd)
      have hge := findEnd_ge h
      have hrest := ih hlast' h
      have hji : j - i = (j - (i + 1)) + 1 := by omega
      rw [hji, List.get?_cons_succ]
      exact hrest

/-- The trimmed remainder, when nonempty, starts with a `{`. -/
theorem dropWhile_brace_head (html : List Char)
    (hne : (html.dropWhile (fun c => c != '{')).isEmpty = false) :
    (html.dropWhile (fun c => c != '{')).head? = some '{' := by
  induction html with
  | nil => simp at hne
  | cons c rest ih =>
    by_cases hc : c = '{'
    · simp [List.dropWhile_cons, hc]
    · simp only [List.dropWhile_cons, bne_iff_ne, ne_eq, hc, not_false_eq_true, if_true] at hne ⊢
      exact ih hne

/-- An input with no opening brace at all makes the scanner fail with its
empty-remainder error. -/
theorem json_object_no_brace (html : List Char)
    (h : ∀ c ∈ html, (c != '{') = true) :
    json_object html = .error (.Internal "cannot parse a json object from an empty string") := by
  have ht : html.dropWhile (fun c => c != '{') = [] := List.dropWhile_eq_nil_iff.mpr h
  simp [json_object, ht]

/-- A successful scan returns a slice that starts at the first `{`, ends on
the `}` that empties the context stack, and is an initial part of the trimmed
remainder. -/
theorem json_object_ok_shape (html out : List Char)
    (h : json_object html = .ok out) :
    out.head? = some '{' ∧ out.getLast? = some '}' ∧
    out <+: html.dropWhile (fun c => c != '{') := by
  simp only [json_object] at h
  split at h
  · simp at h
  · rename_i hne
    split at h
    · rename_i i hfind
      injection h with h
      subst h
      have hne' : (html.dropWhile (fun c => c != '{')).isEmpty = false := by
        revert hne
        cases html.dropWhile (fun c => c != '{') <;> simp
      have hge : 1 ≤ i := findEnd_ge hfind
      have hbr := findEnd_brace (by simp) hfind
      rw [List.get?_drop] at hbr
      have hbi : 1 + (i - 1) = i := by omega
      rw [hbi] at hbr
      have hlt : i < (html.dropWhile (fun c => c != '{')).length := by
        rcases List.get?_eq_some.mp hbr with ⟨hl, _⟩
        exact hl
      refine ⟨?_, ?_, List.take_prefix _ _⟩
      · have hh := dropWhile_brace_head html hne'
        match hd : html.dropWhile (fun c => c != '{'), hh, hlt with
        | c :: rest, hh, hlt =>
          simpa [List.take_succ_cons] using hh
      · have hlen : ((html.dropWhile (fun c => c != '{')).take (i + 1)).length = i + 1 := by
          simp [List.length_take]
          omega
        rw [List.getLast?_eq_get?, hlen]
        simpa [List.get?_take (by omega : i < i + 1)] using hbr
    · simp at h

/-- C5 counterexample: on the input `[1]` the scanner does not start at the
bracket; it trims everything before the first `{`, is left with nothing
and fails, while the claim asserts a successful `[1]` slice. -/
theorem claim_C5_counterexample :
    json_object "[1]".data = .error (.Internal "cannot parse a json object from an empty string") := rfl

/-- C5 (amended): the scanner starts at the first `{` of the input (a leading
`[` never starts a scan); inside it tracks brace, bracket and double-quote
contexts, a backslash inside a string skips one character and the three
openers only open outside a string; a successful scan returns the slice from
the starting `{` through the `}` that empties the stack; inputs without a
`{` (in particular the empty input) and inputs without a balanced closer are
errors.  The concrete conjuncts exercise braces and brackets inside string
contexts with backslash escapes. -/
theorem claim_C5_scanner :
    (∀ html : List Char, (∀ c ∈ html, (c != '{') = true) →
      json_object html = .error (.Internal "cannot parse a json object from an empty string")) ∧
    (∀ html out : List Char, json_object html = .ok out →
      out.head? = some '{' ∧ out.getLast? = some '}' ∧
      out <+: html.dropWhile (fun c => c != '{')) ∧
    json_object "var a = \x7b\"x\": \"\\\"\x7d][\", \"y\": [1, \"\x7d\"]\x7d; rest".data
      = .ok "\x7b\"x\": \"\\\"\x7d][\", \"y\": [1, \"\x7d\"]\x7d".data ∧
    json_object "".data = .error (.Internal "cannot parse a json object from an empty string") ∧
    json_object "\x7b\"a\":1".data = .error (.Internal "could not find a closing delimiter") :=
  ⟨json_object_no_brace, json_object_ok_shape, rfl, rfl, rfl⟩

/-- Witness for C5: the two quantified conjuncts applied at concrete inputs. -/
theorem claim_C5_witness :
    json_object "abc".data = .error (.Internal "cannot parse a json object from an empty string") ∧
    ("\x7b\"a\":[1]\x7d".data.head? = some '{' ∧
     "\x7b\"a\":[1]\x7d".data.getLast? = some '}' ∧
     "\x7b\"a\":[1]\x7d".data <+: ("x=\x7b\"a\":[1]\x7d;".data.dropWhile (fun c => c != '{'))) :=
  ⟨claim_C5_scanner.1 "abc".data (by decide),
   claim_C5_scanner.2.1 "x=\x7b\"a\":[1]\x7d;".data "\x7b\"a\":[1]\x7d".data (by rfl)⟩

/-! ## The download engine (src/stream/mod.rs)

The network is a pure oracle `World : MUrl → MResponse`; a run threads the
ordered list of issued GET requests and the bytes written to the destination
file.  `reqwest::Response::error_for_status` fails exactly on the 400–599
range and attaches that status to the error; an error while streaming the
body carries no status.  Progress callbacks only observe the transfer, so
they stay outside the model. -/

/-- An HTTP response: the status code, the parsed `Segment-Count` header when
present and valid, and the body as a chunk sequence in which `none` is a
transport failure at that point of the stream. -/
structure MResponse where
  status : Nat
  segmentCount : Option Nat
  chunks : List (Option (List Nat))
  deriving DecidableEq, Repr

/-- The network oracle. -/
def World : Type := MUrl → MResponse

/-- The state a download run threads: issued requests and file content. -/
structure DlState where
  reqs : List MUrl
  file : List Nat
  deriving DecidableEq, Repr

/-- Embeds `Stream::get`: log the request, then `error_for_status`. -/
def httpGet (w : World) (u : MUrl) (st : DlState) : DlState × Except MErr MResponse :=
  ({ st with reqs := st.reqs ++ [u] },
   if 400 ≤ (w u).status ∧ (w u).status ≤ 599
   then .error (.Request (some (w u).status))
   else .ok (w u))

/-- Embeds `write_stream_to_file`: append chunks to the file in order; a
transport failure mid-stream surfaces as a status-less request error with the
earlier chunks already written. -/
def write_stream_to_file (chunks : List (Option (List Nat))) (st : DlState) :
    DlState × Except MErr Unit :=
  match chunks with
  | [] => (st, .ok ())
  | none :: _ => (st, .error (.Request none))
  | some b :: rest => write_stream_to_file rest { st with file := st.file ++ b }

/-- Embeds `download_full`: one GET streamed to the file. -/
def download_full (w : World) (u : MUrl) (st : DlState) : DlState × Except MErr Unit :=
  match httpGet w u st with
  | (st', .error e) => (st', .error e)
  | (st', .ok r) => write_stream_to_file r.chunks st'

/-- Embeds `set_url_seq_query`: reset the query to the base query and append
one `sq` parameter. -/
def set_url_seq_query (u : MUrl) (bq : List (List Char × List Char)) (sq : Nat) : MUrl :=
  { u with query := bq ++ [("sq".data, (Nat.repr sq).data)] }

/-- The `for i in 1..segment_count` loop of `download_full_seq`, over an
explicit index list. -/
def seq_segments (w : World) (u : MUrl) (bq : List (List Char × List Char)) :
    List Nat → DlState → DlState × Except MErr Unit
  | [], st => (st, .ok ())
  | i :: rest, st =>
    match download_full w (set_url_seq_query u bq i) st with
    | (st', .ok _) => seq_segments w u bq rest st'
    | (st', .error e) => (st', .error e)

/-- Embeds `download_full_seq`: probe with `sq=0`, read `Segment-Count`,
write the probe body, then fetch segments `1 … n-1` in ascending order. -/
def download_full_seq (w : World) (u : MUrl) (st : DlState) : DlState × Except MErr Unit :=
  let bq := u.query
  match httpGet w (set_url_seq_query u bq 0) st with
  | (st', .error e) => (st', .error e)
  | (st', .ok r) =>
    match r.segmentCount with
    | none => (st', .error (.UnexpectedResponse
        "sequence download request did not contain a Segment-Count"))
    | some n =>
      match write_stream_to_file r.chunks st' with
      | (st2, .error e) => (st2, .error e)
      | (st2, .ok _) => seq_segments w u bq (List.range' 1 (n - 1)) st2

/-- The observable outcome of `internal_download_to`: the requests issued, the
destination file (`none` when it was removed) and the result. -/
structure DlOutcome where
  reqs : List MUrl
  file : Option (List Nat)
  result : Except MErr Unit
  deriving DecidableEq, Repr

/-- Embeds `internal_download_to`: create the file, run the single GET; on a
`Request` error with status 404 run the sequenced fallback once, leaving the
file in whatever state the fallback reached; on any other error remove the
file. -/
def internal_download_to (w : World) (u : MUrl) : DlOutcome :=
  match download_full w u ⟨[], []⟩ with
  | (st, .ok _) => ⟨st.reqs, some st.file, .ok ()⟩
  | (st, .error e) =>
    if e = .Request (some 404) then
      match download_full_seq w u st with
      | (st2, .ok _) => ⟨st2.reqs, some st2.file, .ok ()⟩
      | (st2, .error e2) => ⟨st2.reqs, some st2.file, .error e2⟩
    else ⟨st.reqs, none, .error e⟩

/-- Embeds the path `internal_download` derives:
`Path::new(video_id).with_extension("mp4")`. -/
def download_path (videoId : List Char) : List Char := videoId ++ ".mp4".data

/-- A Unix path is absolute when it starts with a slash. -/
def is_absolute_path (p : List Char) : Bool :=
  match p with
  | [] => false
  | c :: _ => c == '/'

/-- Embeds `internal_download` (the `download()` entry point): run
`internal_download_to` on `<video_id>.mp4` and return that path on success. -/
def internal_download (w : World) (u : MUrl) (videoId : List Char) :
    DlOutcome × List Char :=
  (internal_download_to w u, download_path videoId)

/-- The body a fully-transferred response contributes to the file. -/
def bodyOf (r : MResponse) : List Nat := (r.chunks.filterMap id).join

/-- A response that `error_for_status` accepts and whose body streams without
a transport failure. -/
def goodResponse (r : MResponse) : Bool :=
  decide (¬(400 ≤ r.status ∧ r.status ≤ 599)) && r.chunks.all (fun c => c.isSome)

/-! ### Lemmas about the download engine -/

theorem goodResponse_elim {r : MResponse} (h : goodResponse r = true) :
    ¬(400 ≤ r.status ∧ r.status ≤ 599) ∧ ∀ c ∈ r.chunks, c.isSome := by
  simp [goodResponse, List.all_eq_true] at h
  exact ⟨by omega, h.2⟩

theorem wstf_reqs (chunks : List (Option (List Nat))) (st : DlState) :
    (write_stream_to_file chunks st).1.reqs = st.reqs := by
  induction chunks generalizing st with
  | nil => rfl
  | cons c rest ih =>
    cases c with
    | none => rfl
    | some b => exact ih _

theorem wstf_good (chunks : List (Option (List Nat))) (st : DlState)
    (h : ∀ c ∈ chunks, c.isSome) :
    write_stream_to_file chunks st =
      ({ st with file := st.file ++ (chunks.filterMap id).join }, .ok ()) := by
  induction chunks generalizing st with
  | nil => simp [write_stream_to_file]
  | cons c rest ih =>
    cases c with
    | none => simpa using h none (by simp)
    | some b =>
      rw [show write_stream_to_file (some b :: rest) st =
        write_stream_to_file rest { st with file := st.file ++ b } from rfl]
      rw [ih _ (fun c hc => h c (by simp [hc]))]
      simp

theorem download_full_reqs (w : World) (u : MUrl) (st : DlState) :
    (download_full w u st).1.reqs = st.reqs ++ [u] := by
  unfold download_full httpGet
  split
  · rename_i st' e heq
    have : st' = { st with reqs := st.reqs ++ [u] } := by
      by_cases h : 400 ≤ (w u).status ∧ (w u).status ≤ 599 <;>
        simp [h] at heq <;> exact heq.1.symm
    rw [this]
  · rename_i st' r heq
    have : st' = { st with reqs := st.reqs ++ [u] } := by
      by_cases h : 400 ≤ (w u).status ∧ (w u).status ≤ 599 <;>
        simp [h] at heq <;> exact heq.1.symm
    rw [this, wstf_reqs]

theorem download_full_good (w : World) (u : MUrl) (st : DlState)
    (hok : goodResponse (w u) = true) :
    download_full w u st =
      ({ reqs := st.reqs ++ [u], file := st.file ++ bodyOf (w u) }, .ok ()) := by
  obtain ⟨hst, hch⟩ := goodResponse_elim hok
  unfold download_full httpGet
  rw [if_neg hst]
  simp only []
  rw [wstf_good _ _ hch]
  rfl

theorem download_full_err (w : World) (u : MUrl) (st : DlState)
    (h : 400 ≤ (w u).status ∧ (w u).status ≤ 599) :
    download_full w u st =
      ({ st with reqs := st.reqs ++ [u] }, .error (.Request (some (w u).status))) := by
  unfold download_full httpGet
  rw [if_pos h]

theorem seq_segments_good (w : World) (u : MUrl) (bq : List (List Char × List Char))
    (is : List Nat) (st : DlState)
    (h : ∀ i ∈ is, goodResponse (w (set_url_seq_query u bq i)) = true) :
    seq_segments w u bq is st =
      ({ reqs := st.reqs ++ is.map (set_url_seq_query u bq),
         file := st.file ++ (is.map (fun i => bodyOf (w (set_url_seq_query u bq i)))).join },
       .ok ()) := by
  induction is generalizing st with
  | nil => simp [seq_segments]
  | cons i rest ih =>
    rw [show seq_segments w u bq (i :: rest) st =
      (match download_full w (set_url_seq_query u bq i) st with
       | (st', .ok _) => seq_segments w u bq rest st'
       | (st', .error e) => (st', .error e)) from rfl]
    rw [download_full_good w _ st (h i (by simp))]
    simp only []
    rw [ih _ (fun j hj => h j (by simp [hj]))]
    simp

theorem seq_segments_reqs_mono (w : World) (u : MUrl) (bq : List (List Char × List Char))
    (is : List Nat) (st : DlState) :
    ∃ l, (seq_segments w u bq is st).1.reqs = st.reqs ++ l := by
  induction is generalizing st with
  | nil => exact ⟨[], by simp [seq_segments]⟩
  | cons i rest ih =>
    rw [show seq_segments w u bq (i :: rest) st =
      (match download_full w (set_url_seq_query u bq i) st with
       | (st', .ok _) => seq_segments w u bq rest st'
       | (st', .error e) => (st', .error e)) from rfl]
    cases hdf : download_full w (set_url_seq_query u bq i) st with
    | mk st' res =>
      have hreq : st'.reqs = st.reqs ++ [set_url_seq_query u bq i] := by
        have := download_full_reqs w (set_url_seq_query u bq i) st
        rw [hdf] at this
        exact this
      cases res with
      | ok _ =>
        obtain ⟨l, hl⟩ := ih st'
        exact ⟨[set_url_seq_query u bq i] ++ l, by simp [hl, hreq]⟩
      | error e => exact ⟨[set_url_seq_query u bq i], by simp [hreq]⟩

theorem download_full_seq_reqs (w : World) (u : MUrl) (st : DlState) :
    ∃ l, (download_full_seq w u st).1.reqs =
      st.reqs ++ set_url_seq_query u u.query 0 :: l := by
  simp only [download_full_seq, httpGet]
  by_cases h : 400 ≤ (w (set_url_seq_query u u.query 0)).status ∧
      (w (set_url_seq_query u u.query 0)).status ≤ 599
  · rw [if_pos h]
    exact ⟨[], by simp⟩
  · rw [if_neg h]
    simp only []
    cases hsc : (w (set_url_seq_query u u.query 0)).segmentCount with
    | none => exact ⟨[], by simp⟩
    | some n =>
      simp only []
      cases hw : write_stream_to_file (w (set_url_seq_query u u.query 0)).chunks
          { reqs := st.reqs ++ [set_url_seq_query u u.query 0], file := st.file } with
      | mk st2 res =>
        have hreq2 : st2.reqs = st.reqs ++ [set_url_seq_query u u.query 0] := by
          have := wstf_reqs (w (set_url_seq_query u u.query 0)).chunks
            { reqs := st.reqs ++ [set_url_seq_query u u.query 0], file := st.file }
          rw [hw] at this
          exact this
        cases res with
        | ok _ =>
          obtain ⟨l, hl⟩ := seq_segments_reqs_mono w u u.query (List.range' 1 (n - 1)) st2
          exact ⟨l, by simp [hl, hreq2]⟩
        | error e => exact ⟨[], by simp [hreq2]⟩

theorem wstf_err_shape (chunks : List (Option (List Nat))) (st st' : DlState)
    {e : MErr} (h : write_stream_to_file chunks st = (st', .error e)) :
    e = .Request none := by
  induction chunks generalizing st with
  | nil => simp [write_stream_to_file] at h
  | cons c rest ih =>
    cases c with
    | none =>
      rw [show write_stream_to_file (none :: rest) st = (st, .error (.Request none)) from rfl] at h
      simp only [Prod.mk.injEq, Except.error.injEq] at h
      exact h.2.symm
    | some b => exact ih _ h

theorem download_full_not_404 (w : World) (u : MUrl) (st : DlState)
    (hne : (w u).status ≠ 404) {st' : DlState} {e : MErr}
    (h : download_full w u st = (st', .error e)) : e ≠ .Request (some 404) := by
  unfold download_full httpGet at h
  by_cases hr : 400 ≤ (w u).status ∧ (w u).status ≤ 599
  · rw [if_pos hr] at h
    simp only [] at h
    injection h with h1 h2
    injection h2 with h2
    rw [← h2]
    intro hcontra
    injection hcontra with hcontra
    injection hcontra with hcontra
    exact hne hcontra
  · rw [if_neg hr] at h
    simp only [] at h
    rw [wstf_err_shape _ _ _ h]
    intro hcontra
    injection hcontra with hcontra
    simp at hcontra

theorem download_full_seq_good (w : World) (u : MUrl) (st : DlState) (n : Nat)
    (h0 : (w (set_url_seq_query u u.query 0)).segmentCount = some n)
    (hn : 1 ≤ n)
    (hall : ∀ i < n, goodResponse (w (set_url_seq_query u u.query i)) = true) :
    download_full_seq w u st =
      ({ reqs := st.reqs ++ (List.range n).map (set_url_seq_query u u.query),
         file := st.file ++
           ((List.range n).map (fun i => bodyOf (w (set_url_seq_query u u.query i)))).join },
       .ok ()) := by
  obtain ⟨hst0, hch0⟩ := goodResponse_elim (hall 0 (by omega))
  simp only [download_full_seq, httpGet]
  rw [if_neg hst0]
  simp only []
  rw [h0]
  simp only []
  rw [wstf_good _ _ hch0]
  simp only []
  rw [seq_segments_good w u u.query _ _
    (fun i hi => hall i (by
      have := List.mem_range'_1.mp hi
      omega))]
  obtain ⟨m, rfl⟩ : ∃ m, n = m + 1 := ⟨n - 1, by omega⟩
  rw [List.range_eq_range']
  rw [show List.range' 0 (m + 1) = 0 :: List.range' 1 m from rfl]
  simp [bodyOf]

theorem idt_404 (w : World) (u : MUrl) (h : (w u).status = 404) :
    internal_download_to w u =
      (match download_full_seq w u ⟨[u], []⟩ with
       | (st2, .ok _) => ⟨st2.reqs, some st2.file, .ok ()⟩
       | (st2, .error e2) => ⟨st2.reqs, some st2.file, .error e2⟩) := by
  have herr := download_full_err w u ⟨[], []⟩ (by rw [h]; exact ⟨by omega, by omega⟩)
  rw [h] at herr
  unfold internal_download_to
  rw [herr]
  simp only []
  rw [if_pos trivial]
  rfl

theorem idt_not404_reqs (w : World) (u : MUrl) (h : (w u).status ≠ 404) :
    (internal_download_to w u).reqs = [u] := by
  unfold internal_download_to
  cases hdf : download_full w u ⟨[], []⟩ with
  | mk st res =>
    have hreq : st.reqs = [u] := by
      have := download_full_reqs w u ⟨[], []⟩
      rw [hdf] at this
      simpa using this
    cases res with
    | ok _ => simpa using hreq
    | error e =>
      have hne : e ≠ .Request (some 404) := download_full_not_404 w u ⟨[], []⟩ h hdf
      simp only []
      rw [if_neg hne]
      simpa using hreq

/-- C3: the initial GET goes to the stream URL; the sequenced fallback runs
iff that GET fails with status 404; a failing non-404 status is fatal with no
further request (and the file removed); and on a 404 with a well-behaved
fallback world the requests are exactly the probe `sq=0` and the segments
`sq=1 … n-1` in ascending order — each URL being the unchanged base query
plus a single `sq` parameter — while the file ends up as the concatenation
`B0 ‖ B1 ‖ … ‖ B(n-1)` of the segment bodies. -/
theorem claim_C3_seq_fallback (w : World) (u : MUrl) :
    (internal_download_to w u).reqs.head? = some u ∧
    (2 ≤ (internal_download_to w u).reqs.length ↔ (w u).status = 404) ∧
    (∀ s : Nat, 400 ≤ s → s ≤ 599 → s ≠ 404 → (w u).status = s →
      internal_download_to w u = ⟨[u], none, .error (.Request (some s))⟩) ∧
    (∀ n : Nat, (w u).status = 404 → 1 ≤ n →
      (w (set_url_seq_query u u.query 0)).segmentCount = some n →
      (∀ i < n, goodResponse (w (set_url_seq_query u u.query i)) = true) →
      internal_download_to w u =
        ⟨u :: (List.range n).map (set_url_seq_query u u.query),
         some (((List.range n).map
           (fun i => bodyOf (w (set_url_seq_query u u.query i)))).join),
         .ok ()⟩) := by
  refine ⟨?_, ⟨?_, ?_⟩, ?_, ?_⟩
  · -- the first request is always the stream URL
    by_cases h404 : (w u).status = 404
    · rw [idt_404 w u h404]
      cases hseq : download_full_seq w u ⟨[u], []⟩ with
      | mk st2 res =>
        obtain ⟨l, hl⟩ := download_full_seq_reqs w u ⟨[u], []⟩
        rw [hseq] at hl
        simp only [] at hl
        cases res <;> simp [hl]
    · rw [idt_not404_reqs w u h404]
      rfl
  · -- at least two requests means the initial GET was a 404
    intro h2
    by_contra h404
    rw [idt_not404_reqs w u h404] at h2
    simp at h2
  · -- a 404 triggers the fallback, which issues at least the probe request
    intro h404
    rw [idt_404 w u h404]
    cases hseq : download_full_seq w u ⟨[u], []⟩ with
    | mk st2 res =>
      obtain ⟨l, hl⟩ := download_full_seq_reqs w u ⟨[u], []⟩
      rw [hseq] at hl
      simp only [] at hl
      cases res <;> simp [hl] <;> omega
  · -- fatal non-404 failure: one request, file removed, error propagated
    intro s h4 h5 hne hs
    have herr := download_full_err w u ⟨[], []⟩ (by rw [hs]; exact ⟨h4, h5⟩)
    rw [hs] at herr
    unfold internal_download_to
    rw [herr]
    simp only []
    rw [if_neg (by simp [hne])]
    rfl
  · -- well-behaved fallback after a 404
    intro n h404 hn h0 hall
    rw [idt_404 w u h404]
    rw [download_full_seq_good w u ⟨[u], []⟩ n h0 hn hall]
    rfl

/-- Witness data for C3 and C8: a stream URL with a base query. -/
def cexUrl : MUrl := { base := "https://dl".data, query := [("k".data, "v".data)] }

/-- Witness data for C3: 404 on the stream URL, a three-segment sequenced
download behind it. -/
def seqWorld : World := fun v =>
  if v = cexUrl then { status := 404, segmentCount := none, chunks := [] }
  else if v = set_url_seq_query cexUrl cexUrl.query 0 then
    { status := 200, segmentCount := some 3, chunks := [some [1], some [2]] }
  else if v = set_url_seq_query cexUrl cexUrl.query 1 then
    { status := 200, segmentCount := none, chunks := [some [3]] }
  else if v = set_url_seq_query cexUrl cexUrl.query 2 then
    { status := 200, segmentCount := none, chunks := [some [4], some [5]] }
  else { status := 200, segmentCount := none, chunks := [] }

/-- Witness for C3: on the concrete three-segment world the run issues the
stream URL, then `sq=0`, `sq=1`, `sq=2`, and the file is `B0 ‖ B1 ‖ B2`. -/
theorem claim_C3_witness :
    (seqWorld cexUrl).status = 404 ∧
    internal_download_to seqWorld cexUrl =
      ⟨cexUrl :: (List.range 3).map (set_url_seq_query cexUrl cexUrl.query),
       some [1, 2, 3, 4, 5], .ok ()⟩ := by
  have h := claim_C3_seq_fallback seqWorld cexUrl
  have h5 := h.2.2.2 3 rfl (by omega) rfl (by decide)
  refine ⟨rfl, ?_⟩
  rw [h5]
  rfl

/-- Counterexample data for C8: the initial GET is a 404 and the probe
request of the fallback then fails with a 500. -/
def seqFailWorld : World := fun v =>
  if v = cexUrl then { status := 404, segmentCount := none, chunks := [] }
  else { status := 500, segmentCount := none, chunks := [] }

/-- Counterexample data for C8: every request succeeds with a one-chunk
body. -/
def okWorld : World := fun _ => { status := 200, segmentCount := none, chunks := [some [7]] }

/-- C8 counterexample: when the sequenced fallback fails, the error is
returned with the destination file still present (not removed), and on a
successful `download()` the returned path `<id>.mp4` is relative, not
absolute. -/
theorem claim_C8_counterexample :
    (internal_download_to seqFailWorld cexUrl).result = .error (.Request (some 500)) ∧
    (internal_download_to seqFailWorld cexUrl).file = some [] ∧
    (internal_download okWorld cexUrl "5jlI4uzZGjU".data).1.result = .ok () ∧
    (internal_download okWorld cexUrl "5jlI4uzZGjU".data).2 = "5jlI4uzZGjU.mp4".data ∧
    is_absolute_path (internal_download okWorld cexUrl "5jlI4uzZGjU".data).2 = false := by
  refine ⟨by decide, by decide, by decide, by decide, by decide⟩

/-- C8 (amended): a failing download removes the destination file only when
the failure is not inside the sequenced fallback: a non-404 failure of the
initial transfer removes the file before the error is returned, while a
failure during the sequenced fallback returns the error with the partial file
left in place; on success `download()` returns the path `<video_id>.mp4`,
which is relative whenever the id does not start with a slash. -/
theorem claim_C8_file_cleanup (w : World) (u : MUrl) (videoId : List Char) :
    (∀ st e, download_full w u ⟨[], []⟩ = (st, .error e) → e ≠ .Request (some 404) →
      internal_download_to w u = ⟨st.reqs, none, .error e⟩) ∧
    ((w u).status = 404 →
      ∀ st2 e2, download_full_seq w u ⟨[u], []⟩ = (st2, .error e2) →
      internal_download_to w u = ⟨st2.reqs, some st2.file, .error e2⟩) ∧
    ((internal_download w u videoId).2 = videoId ++ ".mp4".data) ∧
    (videoId.head? ≠ some '/' → is_absolute_path (download_path videoId) = false) := by
  refine ⟨?_, ?_, rfl, ?_⟩
  · intro st e hdf hne
    unfold internal_download_to
    rw [hdf]
    simp only []
    rw [if_neg hne]
  · intro h404 st2 e2 hseq
    rw [idt_404 w u h404, hseq]
  · intro h
    cases videoId with
    | nil => rfl
    | cons c rest =>
      have hc : ¬c = '/' := by
        intro hc
        exact h (by rw [hc]; rfl)
      simp [download_path, is_absolute_path, hc]

/-- Witness for C8 at the concrete worlds. -/
theorem claim_C8_witness :
    internal_download_to seqFailWorld cexUrl =
      ⟨[cexUrl, set_url_seq_query cexUrl cexUrl.query 0], some [],
       .error (.Request (some 500))⟩ ∧
    is_absolute_path (download_path "5jlI4uzZGjU".data) = false := by
  have h := claim_C8_file_cleanup seqFailWorld cexUrl "5jlI4uzZGjU".data
  have h2 := h.2.1 rfl ⟨[cexUrl, set_url_seq_query cexUrl cexUrl.query 0], []⟩
    (.Request (some 500)) (by decide)
  exact ⟨h2, h.2.2.2 (by decide)⟩

end Rustube
